import Mathlib

/-!
Shallow embedding of `src/index.js` of ws-shuffle-sim.

Decks are JS arrays of the numbers 0 and 1; we embed them as `List ℕ`.
Every call `Math.floor(Math.random() * k)` is modelled as `draw k rand ix`
where `rand : ℕ → ℕ` is an arbitrary stream of raw draws and `ix` the
position in that stream: the draw is `rand ix % k`, which ranges over
exactly the values `{0, ..., k-1}` that `Math.floor(Math.random() * k)`
can produce (and `0` when `k = 0`, as in JS where `r * 0 = 0`).

`Array.prototype.splice(start, deleteCount, ...items)` clamps `start`
into `[0, length]` (negative values count from the end) and clamps
`deleteCount` into `[0, length - start]`; `spliceStart`, `spliceRemove`
and `spliceInsert` below reproduce that.

The `while (leftCount > 0)` loop of `riffleShuffle` need not terminate
(its decrement is a random draw that can be 0 forever), so the loop is
embedded with explicit fuel and the shuffle returns an `Option`:
`none` means the loop was still running when the fuel ran out, and a
run that diverges in JS is one that returns `none` for every fuel.
-/

/-- One bounded random draw: `Math.floor(Math.random() * k)` at stream
position `ix`. Ranges over `{0, ..., k-1}` for `k > 0`, and is `0` for
`k = 0` (in JS, `Math.floor(r * 0) = 0`). -/
def draw (k : ℕ) (rand : ℕ → ℕ) (ix : ℕ) : ℕ :=
  if k = 0 then 0 else rand ix % k

/-- The clamped start index of `Array.prototype.splice`: a negative
`start` counts from the end (clamped at 0), a nonnegative one is clamped
at the length. -/
def spliceStart (len : ℕ) (start : Int) : ℕ :=
  if start < 0 then ((len : Int) + start).toNat else min start.toNat len

/-- `arr.splice(start, cnt)` with no insertions: returns
`(removed, remaining)`. The removed block is the segment of length at
most `cnt` beginning at the clamped start index. -/
def spliceRemove (l : List ℕ) (start : Int) (cnt : ℕ) : List ℕ × List ℕ :=
  let s := spliceStart l.length start
  ((l.drop s).take cnt, l.take s ++ l.drop (s + cnt))

/-- `arr.splice(start, 0, ...items)` : inserts `items` at the clamped
start index, removing nothing. -/
def spliceInsert (l : List ℕ) (start : Int) (items : List ℕ) : List ℕ :=
  let s := spliceStart l.length start
  l.take s ++ items ++ l.drop s

/-- `deck.splice(0, cutDeckVariant)` of line 53: the number of cards
actually taken for the left half.  `cutDeckVariant` is
`deck.length / 2 + U - splitError` computed in JS real arithmetic; for
odd lengths it carries a fractional `.5` which `splice`'s integer
conversion truncates toward zero, and the result is clamped into
`[0, length]`.  For every parity this equals
`min len (max 0 (⌊len/2⌋ + U - splitError))`: when the integer part is
nonnegative, truncating `m + 0.5` gives `m`; when it is negative the
truncation gives `m` or `m + 1`, both clamped to `0`. -/
def jsCutCount (len U s : ℕ) : ℕ :=
  min len (((len / 2 : ℕ) : Int) + U - s).toNat

/-- The state of the interleave loop of `riffleShuffle` (lines 56-61):
`deck` is the right portion being interleaved into, `leftHalf` the
remaining left-half scratch array, `leftCount` and `rightCount` the two
counters (JS numbers that can go negative, hence `Int`), and `ix` the
position in the random stream. -/
structure RiffleState where
  deck : List ℕ
  leftHalf : List ℕ
  leftCount : Int
  rightCount : Int
  ix : ℕ
deriving DecidableEq

/-- One iteration of the interleave loop body (lines 57-60):
draw `takeAmount`, remove that many elements of `leftHalf` starting at
index `leftCount` (JS `leftHalf.splice(leftCount, takeAmount)`), insert
the removed block into `deck` at index `rightCount`, decrement
`leftCount` by `takeAmount` and move `rightCount`. -/
def interleaveStep (p : ℕ) (rand : ℕ → ℕ) (st : RiffleState) : RiffleState :=
  let takeAmount := draw p rand st.ix
  let pr := spliceRemove st.leftHalf st.leftCount takeAmount
  let w := draw p rand (st.ix + 1)
  { deck := spliceInsert st.deck st.rightCount pr.1
    leftHalf := pr.2
    leftCount := st.leftCount - takeAmount
    rightCount := st.rightCount - w + takeAmount
    ix := st.ix + 2 }

/-- The fueled `while (leftCount > 0)` loop (line 56): `none` when the
fuel is exhausted while the guard still holds. -/
def interleaveLoop (p : ℕ) (rand : ℕ → ℕ) : ℕ → RiffleState → Option RiffleState
  | 0, st => if st.leftCount ≤ 0 then some st else none
  | f + 1, st =>
    if st.leftCount ≤ 0 then some st
    else interleaveLoop p rand f (interleaveStep p rand st)

/-- One repetition of the riffle shuffle (lines 52-62): split the deck
at `jsCutCount`, set the initial cursor, run the interleave loop, then
flush the remaining left half at the final cursor position (line 62).
Returns the new deck and the next stream position. -/
def riffleOnce (sE pE : ℕ) (rand : ℕ → ℕ) (fuel : ℕ) (deck : List ℕ) (ix : ℕ) :
    Option (List ℕ × ℕ) :=
  let U := draw 9 rand ix
  let cut := jsCutCount deck.length U sE
  let leftHalf := deck.take cut
  let right := deck.drop cut
  let v := draw sE rand (ix + 1)
  match interleaveLoop pE rand fuel
      { deck := right
        leftHalf := leftHalf
        leftCount := (leftHalf.length : Int)
        rightCount := (right.length : Int) - v
        ix := ix + 2 } with
  | none => none
  | some st => some (spliceInsert st.deck st.rightCount st.leftHalf, st.ix)

/-- The `for` loop over repetitions (line 51), threading the deck and
the stream position. -/
def riffleReps (sE pE : ℕ) (rand : ℕ → ℕ) (fuel : ℕ) :
    ℕ → List ℕ → ℕ → Option (List ℕ × ℕ)
  | 0, deck, ix => some (deck, ix)
  | n + 1, deck, ix =>
    match riffleOnce sE pE rand fuel deck ix with
    | none => none
    | some (deck1, ix1) => riffleReps sE pE rand fuel n deck1 ix1

/-- `riffleShuffle(deckInput, repetitions, splitError, packetError)`
(lines 49-65).  The input is copied first (`[...deckInput]`), so the
computation only ever touches the copy. -/
def riffleShuffle (deckInput : List ℕ) (repetitions sE pE : ℕ)
    (rand : ℕ → ℕ) (fuel : ℕ) : Option (List ℕ) :=
  (riffleReps sE pE rand fuel repetitions deckInput 0).map Prod.fst

/-- JS `[array[i], array[j]] = [array[j], array[i]]` (line 72): both
reads happen before either write. -/
def jsSwap (l : List ℕ) (i j : ℕ) : List ℕ :=
  (l.set i (l.getD j 0)).set j (l.getD i 0)

/-- The body of `fisherYatesShuffle`'s loop, recursing on the loop
index `i` counting down (lines 69-73): at each index `i ≥ 1` draw
`j = Math.floor(Math.random() * (i + 1))` and swap. The argument is the
current index; `0` means the loop has finished. -/
def fisherYatesAux (rand : ℕ → ℕ) : ℕ → List ℕ → ℕ → List ℕ × ℕ
  | 0, l, ix => (l, ix)
  | i + 1, l, ix =>
    fisherYatesAux rand i (jsSwap l (i + 1) (draw (i + 2) rand ix)) (ix + 1)

/-- `fisherYatesShuffle(array)` (lines 67-75): loop from
`array.length - 1` down to `1`. Returns the permuted list and the next
stream position. -/
def fisherYatesShuffle (l : List ℕ) (rand : ℕ → ℕ) (ix : ℕ) : List ℕ × ℕ :=
  fisherYatesAux rand (l.length - 1) l ix

/-- The accumulator loop of `calculateAverageDistance` (lines 82-90):
`i` is the current index, `last` the `lastOneIndex` variable (starts at
`-1`), `s` the `distanceSum`, `c` the `count`.  Returns the final
`(distanceSum, count)`. -/
def calcAvgAux : List ℕ → ℕ → Int → Int → ℕ → Int × ℕ
  | [], _, _, s, c => (s, c)
  | x :: rest, i, last, s, c =>
    if x = 1 then
      if last ≠ -1 then calcAvgAux rest (i + 1) i (s + ((i : Int) - last - 1)) (c + 1)
      else calcAvgAux rest (i + 1) i s c
    else calcAvgAux rest (i + 1) last s c

/-- `calculateAverageDistance(array)` (lines 77-93): the average, as an
exact rational, of the gaps between consecutive marked cards;
`0` when no gap was counted. -/
def calculateAverageDistance (l : List ℕ) : ℚ :=
  let p := calcAvgAux l 0 (-1) 0 0
  if 0 < p.2 then (p.1 : ℚ) / (p.2 : ℚ) else 0

/-- The absolute indices (starting at offset `i`) of the entries equal
to `1`. Used to state what `calcAvgAux` computes. -/
def onesIdx : List ℕ → ℕ → List ℕ
  | [], _ => []
  | x :: rest, i =>
    if x = 1 then i :: onesIdx rest (i + 1) else onesIdx rest (i + 1)

/-- Sum of the gaps `i - last - 1` walking along a list of marked
indices, starting from the previous marked index `last`. -/
def gapSum : Int → List ℕ → Int
  | _, [] => 0
  | last, i :: rest => ((i : Int) - last - 1) + gapSum i rest

/-- Modelled from the spec (section 4.3), for comparison with
`calculateAverageDistance`: the positions of the marked cards are
listed in order; each marked card after the first contributes the count
of cards strictly between it and its predecessor; the result is the sum
of these gaps divided by their number, and `0` when fewer than two
marked cards exist. -/
def specAverageDistance (l : List ℕ) : ℚ :=
  match onesIdx l 0 with
  | [] => 0
  | j :: rest =>
    if rest.isEmpty then 0 else (gapSum j rest : ℚ) / (rest.length : ℚ)

/-- Modelled from the spec (section 4.1), for comparison with
`fisherYatesShuffle`: iterate positions from the last index down to
index 1; at each index `i`, draw a uniformly random index `j` in
`[0, i]` and exchange the elements at `i` and `j`. -/
def fySpecGo (rand : ℕ → ℕ) : List ℕ → List ℕ → ℕ → List ℕ
  | [], l, _ => l
  | i :: rest, l, ix => fySpecGo rand rest (jsSwap l i (rand ix % (i + 1))) (ix + 1)

/-- Modelled from the spec (section 4.1): the randomized-mode seed
shuffle, iterating over the indices `length - 1, ..., 1` in that
order. -/
def fisherYatesSpec (l : List ℕ) (rand : ℕ → ℕ) (ix : ℕ) : List ℕ :=
  fySpecGo rand ((List.range' 1 (l.length - 1)).reverse) l ix

section StoreModel

/-- A heap of JS arrays: references are naturals, `next` is the next
fresh reference.  This models which arrays the program mutates and
which it allocates afresh. -/
structure Store where
  arrays : ℕ → List ℕ
  next : ℕ

/-- Write an array in place (a JS mutation of an existing array). -/
def Store.write (σ : Store) (r : ℕ) (v : List ℕ) : Store :=
  ⟨fun x => if x = r then v else σ.arrays x, σ.next⟩

/-- Allocate a fresh array (a JS array literal such as `[...deck]`). -/
def Store.alloc (σ : Store) (v : List ℕ) : Store × ℕ :=
  (⟨fun x => if x = σ.next then v else σ.arrays x, σ.next + 1⟩, σ.next)

/-- `riffleShuffle` at the heap level: it reads the input array `r`,
allocates a fresh copy (`let deck = [...deckInput]`, line 50), performs
all its splices on that copy, and returns the copy's reference.  The
net heap effect of the splices is that the copy holds the final deck. -/
def riffleShuffleRef (σ : Store) (r : ℕ) (repetitions sE pE : ℕ)
    (rand : ℕ → ℕ) (fuel : ℕ) (ix : ℕ) : Option (Store × ℕ × ℕ) :=
  match riffleReps sE pE rand fuel repetitions (σ.arrays r) ix with
  | none => none
  | some (out, ix1) =>
    let a := σ.alloc (σ.arrays r)
    some ((a.1).write a.2 out, a.2, ix1)

/-- `fisherYatesShuffle` at the heap level: it swaps elements of the
array `r` itself in place and returns the very same reference
(line 74 `return array`).  No allocation happens. -/
def fisherYatesRef (σ : Store) (r : ℕ) (rand : ℕ → ℕ) (ix : ℕ) :
    Store × ℕ × ℕ :=
  let p := fisherYatesShuffle (σ.arrays r) rand ix
  (σ.write r p.1, r, p.2)

/-- The unordered-seed simulation loop (lines 97-101): each trial runs
`fisherYatesShuffle` on the shared `unordered` array `r`, feeds the
result (the same reference) to `riffleShuffle`, and pushes the returned
reference.  Returns the final heap and the list of pushed references. -/
def unorderedSim (repetitions sE pE : ℕ) (rand : ℕ → ℕ) (fuel : ℕ) :
    ℕ → Store → ℕ → ℕ → Option (Store × List ℕ)
  | 0, σ, _, _ => some (σ, [])
  | n + 1, σ, r, ix =>
    let fy := fisherYatesRef σ r rand ix
    match riffleShuffleRef fy.1 fy.2.1 repetitions sE pE rand fuel fy.2.2 with
    | none => none
    | some (σ2, r2, ix2) =>
      match unorderedSim repetitions sE pE rand fuel n σ2 r ix2 with
      | none => none
      | some (σ3, refs) => some (σ3, r2 :: refs)

/-- The fixed-seed simulation loop (lines 116-119 and 134-137): each
trial feeds the same template reference `r` to `riffleShuffle` and
pushes the returned reference. -/
def fixedSim (repetitions sE pE : ℕ) (rand : ℕ → ℕ) (fuel : ℕ) :
    ℕ → Store → ℕ → ℕ → Option (Store × List ℕ)
  | 0, σ, _, _ => some (σ, [])
  | n + 1, σ, r, ix =>
    match riffleShuffleRef σ r repetitions sE pE rand fuel ix with
    | none => none
    | some (σ1, r1, ix1) =>
      match fixedSim repetitions sE pE rand fuel n σ1 r ix1 with
      | none => none
      | some (σ2, refs) => some (σ2, r1 :: refs)

end StoreModel

/-- `SIM_COUNT` (line 41). -/
def SIM_COUNT : ℕ := 300000

/-- `REPETITIONS` (line 42). -/
def REPETITIONS : ℕ := 7

/-- `SPLIT_ERROR` (line 43). -/
def SPLIT_ERROR : ℕ := 4

/-- `PACKET_ERROR` (line 44). -/
def PACKET_ERROR : ℕ := 4

/-- The `bottomStacked` seed template (line 45). -/
def bottomStacked : List ℕ :=
  [0, 0, 0, 0, 0, 0, 0, 0, 0, 0, 0, 0, 0, 0, 0, 0, 0, 0, 0, 0, 0, 0, 0, 0, 0,
   0, 0, 0, 0, 0, 0, 0, 0, 0, 0, 0, 0, 0, 0, 0, 0, 0, 1, 1, 1, 1, 1, 1, 1, 1]

/-- The `piled` seed template (line 46). -/
def piled : List ℕ :=
  [0, 0, 0, 0, 0, 1, 0, 0, 0, 0, 0, 1, 0, 0, 0, 0, 0, 1, 0, 0, 0, 0, 0, 1, 0,
   0, 0, 0, 0, 1, 0, 0, 0, 0, 0, 1, 0, 0, 0, 0, 0, 0, 1, 0, 0, 0, 0, 0, 0, 1]

/-- The `unordered` seed template (line 47). -/
def unordered : List ℕ :=
  [0, 0, 0, 0, 0, 1, 0, 0, 0, 0, 1, 0, 0, 0, 0, 1, 0, 1, 0, 1, 0, 0, 0, 0, 1,
   0, 0, 0, 0, 0, 0, 0, 0, 0, 0, 0, 0, 0, 0, 0, 0, 1, 1, 0, 0, 0, 0, 0, 0, 0]

/-! ## Helper lemmas -/

lemma draw_lt {k : ℕ} (rand : ℕ → ℕ) (ix : ℕ) (hk : 0 < k) :
    draw k rand ix < k := by
  unfold draw
  rw [if_neg (Nat.pos_iff_ne_zero.mp hk)]
  exact Nat.mod_lt _ hk

lemma spliceRemove_perm (l : List ℕ) (start : Int) (cnt : ℕ) :
    ((spliceRemove l start cnt).2 ++ (spliceRemove l start cnt).1).Perm l := by
  unfold spliceRemove
  set s := spliceStart l.length start with hs
  have h3 : (l.drop s).drop cnt = l.drop (s + cnt) := by
    rw [List.drop_drop, Nat.add_comm]
  have step1 :
      ((l.take s ++ l.drop (s + cnt)) ++ (l.drop s).take cnt).Perm
        (l.take s ++ ((l.drop s).take cnt ++ l.drop (s + cnt))) := by
    rw [List.append_assoc]
    exact (List.perm_append_comm).append_left _
  have step2 : l.take s ++ ((l.drop s).take cnt ++ l.drop (s + cnt)) = l := by
    rw [← h3, List.take_append_drop, List.take_append_drop]
  simpa [step2] using step1

lemma spliceInsert_perm (l : List ℕ) (start : Int) (items : List ℕ) :
    (spliceInsert l start items).Perm (items ++ l) := by
  unfold spliceInsert
  set s := spliceStart l.length start with hs
  have step1 : ((l.take s ++ items) ++ l.drop s).Perm
      ((items ++ l.take s) ++ l.drop s) :=
    (List.perm_append_comm).append_right _
  have step2 : (items ++ l.take s) ++ l.drop s = items ++ l := by
    rw [List.append_assoc, List.take_append_drop]
  simpa [step2] using step1

/-- One interleave iteration conserves the multiset of the scratch
state: the cards sit either in `deck` or in `leftHalf`. -/
lemma interleaveStep_perm (p : ℕ) (rand : ℕ → ℕ) (st : RiffleState) :
    ((interleaveStep p rand st).deck ++ (interleaveStep p rand st).leftHalf).Perm
      (st.deck ++ st.leftHalf) := by
  unfold interleaveStep
  set t := draw p rand st.ix with ht
  have h1 := spliceInsert_perm st.deck st.rightCount
    (spliceRemove st.leftHalf st.leftCount t).1
  have h2 := spliceRemove_perm st.leftHalf st.leftCount t
  refine ((h1.append_right _).trans ?_)
  have h3 : (((spliceRemove st.leftHalf st.leftCount t).1 ++ st.deck) ++
      (spliceRemove st.leftHalf st.leftCount t).2).Perm
      (st.deck ++ ((spliceRemove st.leftHalf st.leftCount t).2 ++
        (spliceRemove st.leftHalf st.leftCount t).1)) := by
    have hA := (@List.perm_append_comm _
      (spliceRemove st.leftHalf st.leftCount t).1 st.deck).append_right
      ((spliceRemove st.leftHalf st.leftCount t).2)
    refine hA.trans ?_
    rw [List.append_assoc]
    exact (List.perm_append_comm).append_left _
  exact h3.trans (h2.append_left _)

lemma interleaveLoop_perm (p : ℕ) (rand : ℕ → ℕ) :
    ∀ (f : ℕ) (st st' : RiffleState),
      interleaveLoop p rand f st = some st' →
      (st'.deck ++ st'.leftHalf).Perm (st.deck ++ st.leftHalf)
  | 0, st, st', h => by
    unfold interleaveLoop at h
    by_cases hc : st.leftCount ≤ 0
    · rw [if_pos hc] at h
      cases h
      exact List.Perm.refl _
    · rw [if_neg hc] at h
      cases h
  | f + 1, st, st', h => by
    unfold interleaveLoop at h
    by_cases hc : st.leftCount ≤ 0
    · rw [if_pos hc] at h
      cases h
      exact List.Perm.refl _
    · rw [if_neg hc] at h
      exact (interleaveLoop_perm p rand f _ st' h).trans
        (interleaveStep_perm p rand st)

/-- The loop only returns once the guard fails. -/
lemma interleaveLoop_leftCount (p : ℕ) (rand : ℕ → ℕ) :
    ∀ (f : ℕ) (st st' : RiffleState),
      interleaveLoop p rand f st = some st' → st'.leftCount ≤ 0
  | 0, st, st', h => by
    unfold interleaveLoop at h
    by_cases hc : st.leftCount ≤ 0
    · rw [if_pos hc] at h; cases h; exact hc
    · rw [if_neg hc] at h; cases h
  | f + 1, st, st', h => by
    unfold interleaveLoop at h
    by_cases hc : st.leftCount ≤ 0
    · rw [if_pos hc] at h; cases h; exact hc
    · rw [if_neg hc] at h
      exact interleaveLoop_leftCount p rand f _ st' h

/-- One riffle repetition is a permutation (whenever the loop
terminates within its fuel). -/
lemma riffleOnce_perm (sE pE : ℕ) (rand : ℕ → ℕ) (fuel : ℕ)
    (deck : List ℕ) (ix : ℕ) (out : List ℕ) (ix1 : ℕ)
    (h : riffleOnce sE pE rand fuel deck ix = some (out, ix1)) :
    out.Perm deck := by
  unfold riffleOnce at h
  dsimp only at h
  set cut := jsCutCount deck.length (draw 9 rand ix) sE with hcut
  cases hLoop : interleaveLoop pE rand fuel
      { deck := deck.drop cut
        leftHalf := deck.take cut
        leftCount := ((deck.take cut).length : Int)
        rightCount := ((deck.drop cut).length : Int) - draw sE rand (ix + 1)
        ix := ix + 2 } with
  | none => rw [hLoop] at h; cases h
  | some st =>
    rw [hLoop] at h
    cases h
    have h1 := spliceInsert_perm st.deck st.rightCount st.leftHalf
    have h2 := interleaveLoop_perm pE rand fuel _ st hLoop
    have h3 : ((deck.drop cut) ++ (deck.take cut)).Perm deck := by
      have := @List.perm_append_comm _ (deck.drop cut) (deck.take cut)
      simpa [List.take_append_drop] using this
    exact h1.trans ((List.perm_append_comm).trans (h2.trans h3))

lemma riffleReps_perm (sE pE : ℕ) (rand : ℕ → ℕ) (fuel : ℕ) :
    ∀ (n : ℕ) (deck : List ℕ) (ix : ℕ) (out : List ℕ) (ix1 : ℕ),
      riffleReps sE pE rand fuel n deck ix = some (out, ix1) →
      out.Perm deck
  | 0, deck, ix, out, ix1, h => by
    unfold riffleReps at h
    cases h
    exact List.Perm.refl _
  | n + 1, deck, ix, out, ix1, h => by
    unfold riffleReps at h
    cases hOnce : riffleOnce sE pE rand fuel deck ix with
    | none => rw [hOnce] at h; cases h
    | some p1 =>
      rw [hOnce] at h
      exact (riffleReps_perm sE pE rand fuel n p1.1 p1.2 out ix1 h).trans
        (riffleOnce_perm sE pE rand fuel deck ix p1.1 p1.2 hOnce)

/-- Whenever `riffleShuffle` returns, its output is a permutation of
its input. -/
lemma riffleShuffle_perm (deckInput : List ℕ) (repetitions sE pE : ℕ)
    (rand : ℕ → ℕ) (fuel : ℕ) (out : List ℕ)
    (h : riffleShuffle deckInput repetitions sE pE rand fuel = some out) :
    out.Perm deckInput := by
  unfold riffleShuffle at h
  cases hr : riffleReps sE pE rand fuel repetitions deckInput 0 with
  | none => rw [hr] at h; cases h
  | some p =>
    rw [hr] at h
    cases h
    exact riffleReps_perm sE pE rand fuel repetitions deckInput 0 p.1 p.2 hr

/-! ## C1: the shuffle is a permutation -/

/-- C1: For every input deck, every number of repetitions, every
splitError and packetError, and every stream of random draws (and every
fuel bound under which the interleave loops finish), `riffleShuffle`
returns a sequence that is a permutation of the input: same length and
same multiset of 0/1 markers; in particular the count of marker-1 cards
is unchanged. -/
theorem c1_riffleShuffle_perm (deckInput : List ℕ) (repetitions sE pE : ℕ)
    (rand : ℕ → ℕ) (fuel : ℕ) (out : List ℕ)
    (h : riffleShuffle deckInput repetitions sE pE rand fuel = some out) :
    out.Perm deckInput ∧ out.length = deckInput.length ∧
      out.count 1 = deckInput.count 1 := by
  have hp := riffleShuffle_perm deckInput repetitions sE pE rand fuel out h
  exact ⟨hp, hp.length_eq, hp.count_eq 1⟩

/-- Witness for C1 at a concrete deck, stream and fuel. -/
theorem c1_riffleShuffle_perm_witness :
    ([1, 0] : List ℕ).Perm [1, 0] ∧ ([1, 0] : List ℕ).length = ([1, 0] : List ℕ).length ∧
      ([1, 0] : List ℕ).count 1 = ([1, 0] : List ℕ).count 1 :=
  c1_riffleShuffle_perm [1, 0] 1 0 2 (fun _ => 1) 10 [1, 0] rfl

/-! ## C3: the split-size formula -/

/-- C3: In every shuffle repetition the left half is
`deck.take (jsCutCount deck.length U sE)` where `U = draw 9 rand ix` is
the 9-valued offset; whenever `⌊len/2⌋ + U - splitError` lies in
`[0, len]`, the number of cards in that left half equals it. -/
theorem c3_split_size (deck : List ℕ) (U s : ℕ) (hU : U < 9)
    (h0 : 0 ≤ ((deck.length / 2 : ℕ) : Int) + U - s)
    (h1 : ((deck.length / 2 : ℕ) : Int) + U - s ≤ deck.length) :
    ((deck.take (jsCutCount deck.length U s)).length : Int) =
      ((deck.length / 2 : ℕ) : Int) + U - s := by
  have hlen : (deck.take (jsCutCount deck.length U s)).length
      = min (jsCutCount deck.length U s) deck.length :=
    List.length_take _ _
  unfold jsCutCount at *
  omega

/-- Witness for C3: a 50-card deck, `U = 7`, `splitError = 4`. -/
theorem c3_split_size_witness :
    (7 : ℕ) < 9 ∧
      ((bottomStacked.take (jsCutCount bottomStacked.length 7 4)).length : Int) =
        ((bottomStacked.length / 2 : ℕ) : Int) + 7 - 4 :=
  ⟨by decide, c3_split_size bottomStacked 7 4 (by decide) (by decide) (by decide)⟩

/-! ## C4: the interleave loop is unbounded -/

/-- With `packetError = 1` every `takeAmount` draw is
`Math.floor(r * 1) = 0`, so `leftCount` never decreases and the
`while (leftCount > 0)` loop never exits: no fuel suffices. -/
lemma interleaveLoop_packetOne_none (rand : ℕ → ℕ) :
    ∀ (f : ℕ) (st : RiffleState), 0 < st.leftCount →
      interleaveLoop 1 rand f st = none
  | 0, st, h => by
    unfold interleaveLoop
    rw [if_neg (by omega)]
  | f + 1, st, h => by
    unfold interleaveLoop
    rw [if_neg (by omega)]
    apply interleaveLoop_packetOne_none rand f
    have hzero : draw 1 rand st.ix = 0 := by
      unfold draw
      simp [Nat.mod_one]
    unfold interleaveStep
    dsimp only
    rw [hzero]
    simpa using h

/-- A riffle repetition with `packetError = 1` and a non-empty left
half runs out of any fuel. -/
lemma riffleOnce_packetOne_none (sE : ℕ) (rand : ℕ → ℕ) (fuel : ℕ)
    (deck : List ℕ) (ix : ℕ)
    (h : 0 < min (jsCutCount deck.length (draw 9 rand ix) sE) deck.length) :
    riffleOnce sE 1 rand fuel deck ix = none := by
  unfold riffleOnce
  dsimp only
  have hpos : 0 < (((deck.take (jsCutCount deck.length (draw 9 rand ix) sE)).length : ℕ) : Int) := by
    rw [List.length_take]
    omega
  rw [interleaveLoop_packetOne_none rand fuel
    { deck := deck.drop (jsCutCount deck.length (draw 9 rand ix) sE)
      leftHalf := deck.take (jsCutCount deck.length (draw 9 rand ix) sE)
      leftCount := ((deck.take (jsCutCount deck.length (draw 9 rand ix) sE)).length : Int)
      rightCount := ((deck.drop (jsCutCount deck.length (draw 9 rand ix) sE)).length : Int) - draw sE rand (ix + 1)
      ix := ix + 2 } hpos]

/-- C4 (refuting the claimed bound): on the two-card deck `[0, 1]` with
one repetition, `splitError = 0` and `packetError = 1` — parameters the
claim covers (`packetError ≥ 1`) — the interleave loop of
`riffleShuffle` never terminates, and this for EVERY stream of random
draws, since `Math.floor(Math.random() * 1)` is always `0`: the fueled
embedding returns `none` at every fuel bound, so the loop is unbounded
and the flush of line 62 is never reached. -/
theorem c4_loop_unbounded (rand : ℕ → ℕ) (fuel : ℕ) :
    riffleShuffle [0, 1] 1 0 1 rand fuel = none := by
  unfold riffleShuffle riffleReps
  have honce : riffleOnce 0 1 rand fuel [0, 1] 0 = none := by
    apply riffleOnce_packetOne_none
    have h2 : ([0, 1] : List ℕ).length = 2 := rfl
    rw [h2]
    unfold jsCutCount
    omega
  rw [honce]
  rfl

/-! ## C2, C7: the distance metric -/

/-- Running the scan with a real previous marked index `last` yields the
sum of the gaps to the remaining marked indices and their number. -/
lemma calcAvgAux_natLast : ∀ (l : List ℕ) (i last : ℕ) (s : Int) (c : ℕ),
    calcAvgAux l i (last : Int) s c =
      (s + gapSum (last : Int) (onesIdx l i), c + (onesIdx l i).length)
  | [], i, last, s, c => by
    simp [calcAvgAux, onesIdx, gapSum]
  | x :: rest, i, last, s, c => by
    by_cases hx : x = 1
    · have hlast : ((last : ℕ) : Int) ≠ -1 := by omega
      simp only [calcAvgAux, onesIdx, hx, if_pos, hlast, ne_eq, not_false_iff, if_true]
      rw [calcAvgAux_natLast rest (i + 1) i _ _]
      simp only [gapSum, List.length_cons, Prod.mk.injEq]
      constructor
      · ring
      · omega
    · simp only [calcAvgAux, onesIdx, hx, if_false, if_neg hx]
      exact calcAvgAux_natLast rest (i + 1) last s c

/-- The full scan (`lastOneIndex` starting at `-1`): the accumulated sum
is the sum of the consecutive gaps between marked indices, and the
counter is the number of such gaps (marked cards after the first). -/
lemma calcAvgAux_start : ∀ (l : List ℕ) (i : ℕ) (s : Int) (c : ℕ),
    calcAvgAux l i (-1) s c =
      match onesIdx l i with
      | [] => (s, c)
      | j :: rest => (s + gapSum (j : Int) rest, c + rest.length)
  | [], i, s, c => by
    simp [calcAvgAux, onesIdx]
  | x :: rest, i, s, c => by
    by_cases hx : x = 1
    · simp only [calcAvgAux, onesIdx, hx, if_pos, ne_eq, neg_neg, not_true, if_true]
      rw [if_neg (by simp)]
      rw [calcAvgAux_natLast rest (i + 1) i s c]
    · simp only [calcAvgAux, onesIdx, hx, if_neg hx]
      exact calcAvgAux_start rest (i + 1) s c

/-- The accumulated sum never goes negative: every added gap is
`i - last - 1` with `last < i`. -/
lemma calcAvgAux_sum_nonneg : ∀ (l : List ℕ) (i : ℕ) (last s : Int) (c : ℕ),
    0 ≤ s → last < (i : Int) → 0 ≤ (calcAvgAux l i last s c).1
  | [], i, last, s, c, hs, hl => hs
  | x :: rest, i, last, s, c, hs, hl => by
    by_cases hx : x = 1
    · by_cases hlast : last ≠ -1
      · simp only [calcAvgAux, hx, if_pos, hlast, ne_eq, not_false_iff, if_true]
        exact calcAvgAux_sum_nonneg rest (i + 1) i _ _ (by omega) (by omega)
      · simp only [calcAvgAux, hx, if_pos, hlast, if_false]
        exact calcAvgAux_sum_nonneg rest (i + 1) i s c hs (by omega)
    · simp only [calcAvgAux, hx, if_neg hx]
      exact calcAvgAux_sum_nonneg rest (i + 1) last s c hs (by omega)

/-- The number of marked indices equals the count of 1 entries. -/
lemma onesIdx_length : ∀ (l : List ℕ) (i : ℕ),
    (onesIdx l i).length = l.count 1
  | [], i => by simp [onesIdx]
  | x :: rest, i => by
    by_cases hx : x = 1
    · simp [onesIdx, hx, onesIdx_length rest (i + 1), List.count_cons]
    · simp [onesIdx, hx, onesIdx_length rest (i + 1), List.count_cons]

/-- C2: `calculateAverageDistance` returns a nonnegative rational equal
to the sum, over each marked card after the first, of
`currentIndex - previousIndex - 1`, divided by the number of such gaps
(the spec-worded `specAverageDistance`); and it returns `2` on
`[1,0,0,1,0,0,1]`, `0` on `[1,1,1]`, `0` on `[0,0,0]` and `4` on
`[1,0,0,0,0,1]`. -/
theorem c2_avg_distance :
    (∀ l : List ℕ, calculateAverageDistance l = specAverageDistance l ∧
        0 ≤ calculateAverageDistance l) ∧
      calculateAverageDistance [1, 0, 0, 1, 0, 0, 1] = 2 ∧
      calculateAverageDistance [1, 1, 1] = 0 ∧
      calculateAverageDistance [0, 0, 0] = 0 ∧
      calculateAverageDistance [1, 0, 0, 0, 0, 1] = 4 := by
  refine ⟨fun l => ⟨?_, ?_⟩, by norm_num [calculateAverageDistance, calcAvgAux],
    by norm_num [calculateAverageDistance, calcAvgAux],
    by norm_num [calculateAverageDistance, calcAvgAux],
    by norm_num [calculateAverageDistance, calcAvgAux]⟩
  · unfold calculateAverageDistance specAverageDistance
    rw [calcAvgAux_start l 0 0 0]
    cases h : onesIdx l 0 with
    | nil => simp
    | cons j rest =>
      cases rest with
      | nil => simp [gapSum]
      | cons j2 r2 => simp [List.isEmpty_cons]
  · unfold calculateAverageDistance
    dsimp only
    by_cases hc : 0 < (calcAvgAux l 0 (-1) 0 0).2
    · rw [if_pos hc]
      apply div_nonneg
      · have := calcAvgAux_sum_nonneg l 0 (-1) 0 0 (le_refl 0) (by omega)
        exact_mod_cast this
      · positivity
    · rw [if_neg hc]

/-- The unordered simulation pushes exactly one result per trial. -/
lemma unorderedSim_length (reps sE pE : ℕ) (rand : ℕ → ℕ) (fuel : ℕ) :
    ∀ (n : ℕ) (σ : Store) (r ix : ℕ) (σ2 : Store) (refs : List ℕ),
      unorderedSim reps sE pE rand fuel n σ r ix = some (σ2, refs) →
      refs.length = n
  | 0, σ, r, ix, σ2, refs, h => by
    unfold unorderedSim at h
    cases h
    rfl
  | n + 1, σ, r, ix, σ2, refs, h => by
    unfold unorderedSim at h
    dsimp only at h
    cases h1 : riffleShuffleRef (fisherYatesRef σ r rand ix).1
        (fisherYatesRef σ r rand ix).2.1 reps sE pE rand fuel
        (fisherYatesRef σ r rand ix).2.2 with
    | none => rw [h1] at h; cases h
    | some p =>
      obtain ⟨σa, ra, ixa⟩ := p
      rw [h1] at h
      dsimp only at h
      cases h2 : unorderedSim reps sE pE rand fuel n σa r ixa with
      | none => rw [h2] at h; cases h
      | some q =>
        obtain ⟨σb, refsb⟩ := q
        rw [h2] at h
        dsimp only at h
        cases h
        simpa using unorderedSim_length reps sE pE rand fuel n σa r ixa _ _ h2

/-- C7: a deck with fewer than two marked cards yields distance exactly 0
(`calculateAverageDistance` is total, so this is no error), and the
sample set still receives one entry per trial: mapping the distance
metric over the refs collected by the simulation gives a list whose
length is the trial count, whatever the decks contain. -/
theorem c7_degenerate_distance :
    (∀ deck : List ℕ, deck.count 1 < 2 → calculateAverageDistance deck = 0) ∧
      (∀ (reps sE pE : ℕ) (rand : ℕ → ℕ) (fuel n : ℕ) (σ : Store) (r ix : ℕ)
          (σ2 : Store) (refs : List ℕ),
        unorderedSim reps sE pE rand fuel n σ r ix = some (σ2, refs) →
        (refs.map (fun t => calculateAverageDistance (σ2.arrays t))).length = n) := by
  constructor
  · intro deck hcount
    unfold calculateAverageDistance
    rw [calcAvgAux_start deck 0 0 0]
    have hlen := onesIdx_length deck 0
    cases h : onesIdx deck 0 with
    | nil => simp
    | cons j rest =>
      rw [h] at hlen
      cases rest with
      | nil => simp
      | cons j2 r2 => simp [h] at hlen; omega
  · intro reps sE pE rand fuel n σ r ix σ2 refs h
    rw [List.length_map]
    exact unorderedSim_length reps sE pE rand fuel n σ r ix σ2 refs h

/-- Witness for C7: a one-marker deck yields 0, and an (empty)
simulation's sample set has one entry per trial. -/
theorem c7_degenerate_distance_witness :
    calculateAverageDistance [0, 0, 0, 1] = 0 ∧
      ((([] : List ℕ).map
        (fun t => calculateAverageDistance ((⟨fun _ => [], 0⟩ : Store).arrays t))).length = 0) :=
  ⟨c7_degenerate_distance.1 [0, 0, 0, 1] (by decide),
    c7_degenerate_distance.2 7 4 4 (fun _ => 0) 10 0 ⟨fun _ => [], 0⟩ 0 0
      ⟨fun _ => [], 0⟩ [] rfl⟩

/-! ## C5: what one interleave iteration actually removes -/

/-- C5 counterexample: in the run of `riffleShuffle [0,1] 1 0 2` on the
all-ones stream, the first interleave iteration starts at
`leftHalf = [0,1]`, `leftCount = 2`, draws packet size `1` — yet the
packet removed by `leftHalf.splice(leftCount, takeAmount)` is EMPTY
(the splice start index equals the length), not the one-card tail `[1]`
the claim predicts, and the loop then stops (`leftCount ≤ 0`) with the
left half still holding `[0]`: it is not exhausted. -/
theorem c5_counterexample :
    draw 2 (fun _ => 1) 2 = 1 ∧
      (spliceRemove ([0, 1] : List ℕ) 2 (draw 2 (fun _ => 1) 2)).1 = [] ∧
      (interleaveStep 2 (fun _ => 1) ⟨[], [0, 1], 2, 0, 2⟩).leftHalf = [0, 1] ∧
      interleaveLoop 2 (fun _ => 1) 10 ⟨[], [0, 1], 2, 0, 2⟩ =
        some ⟨[1], [0], 0, 0, 6⟩ ∧
      ([0] : List ℕ) ≠ [] := by
  refine ⟨rfl, rfl, rfl, rfl, by decide⟩

/-- C5 (amended): in every iteration the drawn size is in
`{0, ..., packetError-1}`; the packet actually removed is the contiguous
segment of the left half starting at the clamped counter position
`leftCount` and of length at most the drawn size (so not in general the
tail, and empty whenever the counter reaches past the end); that packet
is inserted at the cursor; the counter decreases by the drawn size; and
the loop runs until the counter is `≤ 0`, not until the left half is
empty. -/
theorem c5_amended (p : ℕ) (rand : ℕ → ℕ) (st : RiffleState) (hp : 0 < p) :
    draw p rand st.ix < p ∧
      (∃ pre post : List ℕ,
        st.leftHalf =
          pre ++ (spliceRemove st.leftHalf st.leftCount (draw p rand st.ix)).1 ++ post ∧
        (interleaveStep p rand st).leftHalf = pre ++ post) ∧
      (interleaveStep p rand st).deck =
        spliceInsert st.deck st.rightCount
          (spliceRemove st.leftHalf st.leftCount (draw p rand st.ix)).1 ∧
      (interleaveStep p rand st).leftCount = st.leftCount - draw p rand st.ix ∧
      (∀ (f : ℕ) (st' : RiffleState),
        interleaveLoop p rand f st = some st' → st'.leftCount ≤ 0) := by
  refine ⟨draw_lt rand st.ix hp, ?_, rfl, rfl,
    fun f st' h => interleaveLoop_leftCount p rand f st st' h⟩
  set t := draw p rand st.ix with ht
  set s0 := spliceStart st.leftHalf.length st.leftCount with hs0
  refine ⟨st.leftHalf.take s0, st.leftHalf.drop (s0 + t), ?_, ?_⟩
  · have hsplit : ((st.leftHalf.drop s0).take t) ++ st.leftHalf.drop (s0 + t)
        = st.leftHalf.drop s0 := by
      have hd : (st.leftHalf.drop s0).drop t = st.leftHalf.drop (s0 + t) := by
        rw [List.drop_drop, Nat.add_comm]
      rw [← hd, List.take_append_drop]
    unfold spliceRemove
    rw [List.append_assoc, hsplit, List.take_append_drop]
  · rfl

/-- Witness for C5's amended statement at a concrete state and stream. -/
theorem c5_amended_witness :
    draw 2 (fun _ => 1) (⟨[], [0, 1], 2, 0, 2⟩ : RiffleState).ix < 2 ∧
      (∃ pre post : List ℕ,
        (⟨[], [0, 1], 2, 0, 2⟩ : RiffleState).leftHalf =
          pre ++ (spliceRemove (⟨[], [0, 1], 2, 0, 2⟩ : RiffleState).leftHalf
            (⟨[], [0, 1], 2, 0, 2⟩ : RiffleState).leftCount
            (draw 2 (fun _ => 1) (⟨[], [0, 1], 2, 0, 2⟩ : RiffleState).ix)).1 ++ post ∧
        (interleaveStep 2 (fun _ => 1) ⟨[], [0, 1], 2, 0, 2⟩).leftHalf = pre ++ post) ∧
      (interleaveStep 2 (fun _ => 1) ⟨[], [0, 1], 2, 0, 2⟩).deck =
        spliceInsert (⟨[], [0, 1], 2, 0, 2⟩ : RiffleState).deck
          (⟨[], [0, 1], 2, 0, 2⟩ : RiffleState).rightCount
          (spliceRemove (⟨[], [0, 1], 2, 0, 2⟩ : RiffleState).leftHalf
            (⟨[], [0, 1], 2, 0, 2⟩ : RiffleState).leftCount
            (draw 2 (fun _ => 1) (⟨[], [0, 1], 2, 0, 2⟩ : RiffleState).ix)).1 ∧
      (interleaveStep 2 (fun _ => 1) ⟨[], [0, 1], 2, 0, 2⟩).leftCount =
        (⟨[], [0, 1], 2, 0, 2⟩ : RiffleState).leftCount -
          draw 2 (fun _ => 1) (⟨[], [0, 1], 2, 0, 2⟩ : RiffleState).ix ∧
      (∀ (f : ℕ) (st' : RiffleState),
        interleaveLoop 2 (fun _ => 1) f ⟨[], [0, 1], 2, 0, 2⟩ = some st' →
          st'.leftCount ≤ 0) :=
  c5_amended 2 (fun _ => 1) ⟨[], [0, 1], 2, 0, 2⟩ (by decide)

/-! ## C9: out-of-range split sizes -/

/-- C9 counterexample: on the two-card deck with `splitError = 20` and
the all-zero stream, the computed split size `⌊2/2⌋ + 0 - 20 = -19`
falls below 0, yet the repetition is neither rejected nor marked in any
way: `splice` silently clamps the take to 0 and `riffleShuffle` returns
an ordinary `some` result, indistinguishable from an in-range run. -/
theorem c9_counterexample :
    (((([0, 1] : List ℕ).length / 2 : ℕ) : Int) + 0 - 20 < 0 ∧
      draw 9 (fun _ => 0) 0 = 0 ∧
      jsCutCount ([0, 1] : List ℕ).length 0 20 = 0 ∧
      riffleShuffle [0, 1] 1 20 2 (fun _ => 0) 5 = some [0, 1]) := by
  refine ⟨by decide, rfl, rfl, rfl⟩

/-- C9 (amended): an out-of-range computed split size is silently
clamped into `[0, deckLength]` by the `splice` semantics — the number
of cards taken is exactly `min len (max 0 (⌊len/2⌋ + U - splitError))`,
with no rejection and no detectable signal — and the deck length
invariant is preserved by every run that returns. -/
theorem c9_amended :
    (∀ len U s : ℕ, (jsCutCount len U s : Int) =
        min (len : Int) (max 0 (((len / 2 : ℕ) : Int) + U - s))) ∧
      (∀ (deck : List ℕ) (reps sE pE : ℕ) (rand : ℕ → ℕ) (fuel : ℕ) (out : List ℕ),
        riffleShuffle deck reps sE pE rand fuel = some out →
        out.length = deck.length) := by
  constructor
  · intro len U s
    unfold jsCutCount
    omega
  · intro deck reps sE pE rand fuel out h
    exact (riffleShuffle_perm deck reps sE pE rand fuel out h).length_eq

/-- Witness for C9's amended statement: the clamp at the
counterexample's parameters, and length preservation on a concrete
run. -/
theorem c9_amended_witness :
    (jsCutCount 2 0 20 : Int) = min (2 : Int) (max 0 (((2 / 2 : ℕ) : Int) + 0 - 20)) ∧
      ([1, 0] : List ℕ).length = ([1, 0] : List ℕ).length :=
  ⟨c9_amended.1 2 0 20,
    c9_amended.2 [1, 0] 1 0 2 (fun _ => 1) 10 [1, 0] rfl⟩

/-! ## C6: the riffle shuffle never mutates its input array -/

/-- Heap effect of one `riffleShuffle` call: the returned reference is
the freshly allocated copy, the allocation counter advances by one, and
every other reference — in particular the input array — is untouched. -/
lemma riffleShuffleRef_frame (σ : Store) (r reps sE pE : ℕ) (rand : ℕ → ℕ)
    (fuel ix : ℕ) (σ1 : Store) (r1 ix1 : ℕ)
    (h : riffleShuffleRef σ r reps sE pE rand fuel ix = some (σ1, r1, ix1)) :
    r1 = σ.next ∧ σ1.next = σ.next + 1 ∧
      ∀ x : ℕ, x ≠ σ.next → σ1.arrays x = σ.arrays x := by
  unfold riffleShuffleRef at h
  cases hr : riffleReps sE pE rand fuel reps (σ.arrays r) ix with
  | none => rw [hr] at h; cases h
  | some p =>
    obtain ⟨out, ixo⟩ := p
    rw [hr] at h
    dsimp only at h
    cases h
    refine ⟨rfl, rfl, fun x hx => ?_⟩
    simp [Store.write, Store.alloc, hx]

/-- C6: `riffleShuffle` operates on a copy: after any call the input
array is element-for-element what it was before, and the returned array
is a different reference; consequently a fixed-mode simulation of any
number of trials leaves its seed template array (e.g. `bottomStacked`
or `piled`) exactly as it started — successive trials all shuffle equal
decks and never degrade the template. -/
theorem c6_no_input_mutation :
    (∀ (σ : Store) (r reps sE pE : ℕ) (rand : ℕ → ℕ) (fuel ix : ℕ)
        (σ1 : Store) (r1 ix1 : ℕ),
      r < σ.next →
      riffleShuffleRef σ r reps sE pE rand fuel ix = some (σ1, r1, ix1) →
      σ1.arrays r = σ.arrays r ∧ r1 ≠ r) ∧
      (∀ (reps sE pE : ℕ) (rand : ℕ → ℕ) (fuel : ℕ),
        ∀ (n : ℕ) (σ : Store) (r ix : ℕ) (σ2 : Store) (refs : List ℕ),
          r < σ.next →
          fixedSim reps sE pE rand fuel n σ r ix = some (σ2, refs) →
          σ2.arrays r = σ.arrays r) := by
  constructor
  · intro σ r reps sE pE rand fuel ix σ1 r1 ix1 hr h
    obtain ⟨h1, h2, h3⟩ := riffleShuffleRef_frame σ r reps sE pE rand fuel ix σ1 r1 ix1 h
    exact ⟨h3 r (by omega), by omega⟩
  · intro reps sE pE rand fuel
    intro n
    induction n with
    | zero =>
      intro σ r ix σ2 refs hr h
      unfold fixedSim at h
      cases h
      rfl
    | succ n ih =>
      intro σ r ix σ2 refs hr h
      unfold fixedSim at h
      cases h1 : riffleShuffleRef σ r reps sE pE rand fuel ix with
      | none => rw [h1] at h; cases h
      | some p =>
        obtain ⟨σa, ra, ixa⟩ := p
        rw [h1] at h
        dsimp only at h
        cases h2 : fixedSim reps sE pE rand fuel n σa r ixa with
        | none => rw [h2] at h; cases h
        | some q =>
          obtain ⟨σb, refsb⟩ := q
          rw [h2] at h
          dsimp only at h
          cases h
          obtain ⟨ha, hb, hc⟩ :=
            riffleShuffleRef_frame σ r reps sE pE rand fuel ix σa ra ixa h1
          rw [ih σa r ixa _ _ (by omega) h2]
          exact hc r (by omega)

/-- Witness for C6 on a concrete two-card heap: the template at ref 0
is unchanged and the result ref is fresh. -/
theorem c6_no_input_mutation_witness :
    ((((⟨fun _ => ([1, 0] : List ℕ), 1⟩ : Store).alloc
          ((⟨fun _ => ([1, 0] : List ℕ), 1⟩ : Store).arrays 0)).1.write
        (((⟨fun _ => ([1, 0] : List ℕ), 1⟩ : Store).alloc
          ((⟨fun _ => ([1, 0] : List ℕ), 1⟩ : Store).arrays 0)).2) [1, 0]).arrays 0
        = (⟨fun _ => ([1, 0] : List ℕ), 1⟩ : Store).arrays 0 ∧ (1 : ℕ) ≠ 0) :=
  c6_no_input_mutation.1 ⟨fun _ => [1, 0], 1⟩ 0 1 0 2 (fun _ => 1) 10 0
    ((((⟨fun _ => ([1, 0] : List ℕ), 1⟩ : Store).alloc
        ((⟨fun _ => ([1, 0] : List ℕ), 1⟩ : Store).arrays 0)).1).write
      (((⟨fun _ => ([1, 0] : List ℕ), 1⟩ : Store).alloc
        ((⟨fun _ => ([1, 0] : List ℕ), 1⟩ : Store).arrays 0)).2) [1, 0]) 1 6
    (by decide) rfl

/-! ## C8, C10: Fisher-Yates -/

/-- Consing the element read at position `m` onto the list with `x`
written at position `m` is a permutation of consing `x`. -/
lemma cons_set_perm : ∀ (t : List ℕ) (m : ℕ) (x : ℕ), m < t.length →
    (t.getD m 0 :: t.set m x).Perm (x :: t)
  | [], m, x, h => by simp at h
  | y :: s, 0, x, h => by
    simp only [List.getD_cons_zero, List.set_cons_zero]
    exact List.Perm.swap x y s
  | y :: s, m + 1, x, h => by
    simp only [List.getD_cons_succ, List.set_cons_succ]
    have ih := cons_set_perm s m x (by simpa using h)
    refine (List.Perm.swap y (s.getD m 0) (s.set m x)).trans ?_
    exact (ih.cons y).trans (List.Perm.swap x y s)

/-- The JS destructuring swap is a permutation when both indices are in
range. -/
lemma jsSwap_perm : ∀ (l : List ℕ) (i j : ℕ), i < l.length → j < l.length →
    (jsSwap l i j).Perm l
  | [], i, j, hi, hj => by simp at hi
  | y :: t, 0, 0, hi, hj => by
    simp [jsSwap]
  | y :: t, 0, m + 1, hi, hj => by
    unfold jsSwap
    simp only [List.getD_cons_succ, List.getD_cons_zero, List.set_cons_zero,
      List.set_cons_succ]
    exact cons_set_perm t m y (by simpa using hj)
  | y :: t, k + 1, 0, hi, hj => by
    unfold jsSwap
    simp only [List.getD_cons_succ, List.getD_cons_zero, List.set_cons_zero,
      List.set_cons_succ]
    exact cons_set_perm t k y (by simpa using hi)
  | y :: t, k + 1, m + 1, hi, hj => by
    unfold jsSwap
    simp only [List.getD_cons_succ, List.set_cons_succ]
    exact (jsSwap_perm t k m (by simpa using hi) (by simpa using hj)).cons y

lemma jsSwap_length (l : List ℕ) (i j : ℕ) :
    (jsSwap l i j).length = l.length := by
  simp [jsSwap]

lemma fisherYatesAux_perm (rand : ℕ → ℕ) :
    ∀ (i : ℕ) (l : List ℕ) (ix : ℕ), i < l.length →
      ((fisherYatesAux rand i l ix).1).Perm l
  | 0, l, ix, h => List.Perm.refl l
  | i + 1, l, ix, h => by
    unfold fisherYatesAux
    have hj : draw (i + 2) rand ix < l.length := by
      have := @draw_lt (i + 2) rand ix (by omega)
      omega
    have hswap := jsSwap_perm l (i + 1) (draw (i + 2) rand ix) h hj
    have ih := fisherYatesAux_perm rand i (jsSwap l (i + 1) (draw (i + 2) rand ix))
      (ix + 1) (by rw [jsSwap_length]; omega)
    exact ih.trans hswap

/-- `fisherYatesShuffle` permutes its argument: the multiset of markers
is preserved. -/
lemma fisherYatesShuffle_perm (l : List ℕ) (rand : ℕ → ℕ) (ix : ℕ) :
    ((fisherYatesShuffle l rand ix).1).Perm l := by
  unfold fisherYatesShuffle
  cases l with
  | nil => exact List.Perm.refl _
  | cons y t =>
    apply fisherYatesAux_perm
    simp

/-- The loop of `fisherYatesShuffle` visits exactly the indices
`length-1, ..., 1` in that order, drawing `j` in `[0, i]` at each. -/
lemma fisherYatesAux_eq_spec (rand : ℕ → ℕ) :
    ∀ (i : ℕ) (l : List ℕ) (ix : ℕ),
      (fisherYatesAux rand i l ix).1 = fySpecGo rand ((List.range' 1 i).reverse) l ix
  | 0, l, ix => by
    simp [fisherYatesAux, fySpecGo]
  | i + 1, l, ix => by
    have hr : (List.range' 1 (i + 1)).reverse = (i + 1) :: (List.range' 1 i).reverse := by
      rw [List.range'_concat]
      simp [Nat.add_comm]
    rw [hr]
    unfold fisherYatesAux fySpecGo
    have hdraw : draw (i + 2) rand ix = rand ix % (i + 1 + 1) := by
      unfold draw
      simp
    rw [← hdraw]
    exact fisherYatesAux_eq_spec rand i _ (ix + 1)

lemma fisherYatesShuffle_eq_spec (l : List ℕ) (rand : ℕ → ℕ) (ix : ℕ) :
    (fisherYatesShuffle l rand ix).1 = fisherYatesSpec l rand ix := by
  unfold fisherYatesShuffle fisherYatesSpec
  exact fisherYatesAux_eq_spec rand (l.length - 1) l ix

/-- C8: randomized-mode seed generation is exactly the stated
Fisher-Yates algorithm — `fisherYatesShuffle` coincides with the
spec-worded `fisherYatesSpec` (iterate from the last index down to 1,
draw `j` in `[0, i]`, exchange) on every input — the array each trial
hands to the riffle shuffle is a fresh run of it on the template's
current content, and the simulation loop re-executes it once per trial:
each `n + 1`-trial run starts with one `fisherYatesRef` call on the
current heap and continues with an `n`-trial run. -/
theorem c8_fisher_yates :
    (∀ (l : List ℕ) (rand : ℕ → ℕ) (ix : ℕ),
        (fisherYatesShuffle l rand ix).1 = fisherYatesSpec l rand ix) ∧
      (∀ (σ : Store) (r : ℕ) (rand : ℕ → ℕ) (ix : ℕ),
        ((fisherYatesRef σ r rand ix).1).arrays ((fisherYatesRef σ r rand ix).2.1) =
          (fisherYatesShuffle (σ.arrays r) rand ix).1) ∧
      (∀ (reps sE pE : ℕ) (rand : ℕ → ℕ) (fuel n : ℕ) (σ : Store) (r ix : ℕ),
        unorderedSim reps sE pE rand fuel (n + 1) σ r ix =
          match riffleShuffleRef (fisherYatesRef σ r rand ix).1
              ((fisherYatesRef σ r rand ix).2.1) reps sE pE rand fuel
              ((fisherYatesRef σ r rand ix).2.2) with
          | none => none
          | some (σ2, r2, ix2) =>
            match unorderedSim reps sE pE rand fuel n σ2 r ix2 with
            | none => none
            | some (σ3, refs) => some (σ3, r2 :: refs)) := by
  refine ⟨fisherYatesShuffle_eq_spec, ?_, ?_⟩
  · intro σ r rand ix
    simp [fisherYatesRef, Store.write]
  · intro reps sE pE rand fuel n σ r ix
    rfl

/-- C10: `fisherYatesShuffle` permutes its argument array in place and
returns the very same reference; the simulation therefore permutes the
single shared unordered template itself — after a trial the template
slot holds exactly the Fisher-Yates permutation of its previous content
(no fresh copy), a permutation, so its ordering evolves across trials
while its multiset of markers is preserved. -/
theorem c10_fisher_yates_in_place :
    (∀ (σ : Store) (r : ℕ) (rand : ℕ → ℕ) (ix : ℕ),
        (fisherYatesRef σ r rand ix).2.1 = r) ∧
      (∀ (σ : Store) (r : ℕ) (rand : ℕ → ℕ) (ix : ℕ),
        ((fisherYatesRef σ r rand ix).1).arrays r =
          (fisherYatesShuffle (σ.arrays r) rand ix).1) ∧
      (∀ (l : List ℕ) (rand : ℕ → ℕ) (ix : ℕ),
        ((fisherYatesShuffle l rand ix).1).Perm l) ∧
      (∀ (σ : Store) (r : ℕ) (rand : ℕ → ℕ) (ix reps sE pE fuel : ℕ)
          (σ2 : Store) (r2 ix2 : ℕ),
        r < σ.next →
        riffleShuffleRef (fisherYatesRef σ r rand ix).1
            ((fisherYatesRef σ r rand ix).2.1) reps sE pE rand fuel
            ((fisherYatesRef σ r rand ix).2.2) = some (σ2, r2, ix2) →
        σ2.arrays r = (fisherYatesShuffle (σ.arrays r) rand ix).1) := by
  refine ⟨fun σ r rand ix => rfl, ?_, fisherYatesShuffle_perm, ?_⟩
  · intro σ r rand ix
    simp [fisherYatesRef, Store.write]
  · intro σ r rand ix reps sE pE fuel σ2 r2 ix2 hr h
    obtain ⟨h1, h2, h3⟩ := riffleShuffleRef_frame _ _ _ _ _ _ _ _ _ _ _ h
    have hnext : ((fisherYatesRef σ r rand ix).1).next = σ.next := rfl
    rw [h3 r (by omega)]
    simp [fisherYatesRef, Store.write]

/-- Witness for C10 on a concrete two-card heap: one trial leaves the
template slot holding the Fisher-Yates permutation of its previous
content. -/
theorem c10_fisher_yates_in_place_witness :
    (0 : ℕ) < 1 ∧
      Store.arrays (Store.write (Store.alloc (fisherYatesRef (⟨fun _ => ([1, 0] : List ℕ), 1⟩ : Store) 0 (fun _ => 1) 0).1 (Store.arrays (fisherYatesRef (⟨fun _ => ([1, 0] : List ℕ), 1⟩ : Store) 0 (fun _ => 1) 0).1 0)).1 (Store.alloc (fisherYatesRef (⟨fun _ => ([1, 0] : List ℕ), 1⟩ : Store) 0 (fun _ => 1) 0).1 (Store.arrays (fisherYatesRef (⟨fun _ => ([1, 0] : List ℕ), 1⟩ : Store) 0 (fun _ => 1) 0).1 0)).2 [1, 0]) 0 =
        (fisherYatesShuffle (Store.arrays (⟨fun _ => ([1, 0] : List ℕ), 1⟩ : Store) 0) (fun _ => 1) 0).1 :=
  ⟨by decide,
    c10_fisher_yates_in_place.2.2.2 (⟨fun _ => ([1, 0] : List ℕ), 1⟩ : Store) 0 (fun _ => 1) 0 1 0 2 10
      (Store.write (Store.alloc (fisherYatesRef (⟨fun _ => ([1, 0] : List ℕ), 1⟩ : Store) 0 (fun _ => 1) 0).1 (Store.arrays (fisherYatesRef (⟨fun _ => ([1, 0] : List ℕ), 1⟩ : Store) 0 (fun _ => 1) 0).1 0)).1 (Store.alloc (fisherYatesRef (⟨fun _ => ([1, 0] : List ℕ), 1⟩ : Store) 0 (fun _ => 1) 0).1 (Store.arrays (fisherYatesRef (⟨fun _ => ([1, 0] : List ℕ), 1⟩ : Store) 0 (fun _ => 1) 0).1 0)).2 [1, 0]) 1 7 (by decide) rfl⟩
